import Mathlib

/-!
Verification of the Watsonx streaming provider
(src/providers/watsonx-provider.ts) against its specification.

JavaScript strings are modelled as lists of characters (`Str`); the
JavaScript `slice(n)` on a string is `List.drop n`, and string truthiness
is the test for non-emptiness.  Timestamps (`Date.now()`, milliseconds) are
integers.  Monetary amounts are rationals; at the concrete example of the
spec ($0.05/1M, $0.08/1M, 1M/0.5M tokens) the IEEE binary64 evaluation of
lines 283-294 produces exactly the doubles nearest 0.05, 0.04 and 0.09, so
the rational model agrees with the JavaScript number semantics at those
inputs.  Fallible code is modelled with `Option`/`Except`, and the
background async task of `streamWatsonx` is modelled as the finite trace of
actions (network calls and event emissions) it performs.
-/
abbrev Str := List Char

/-- One parsed element of `results` in an SSE data frame
(watsonx-provider.ts lines 230-237).  Absent JSON fields are `none`. -/
structure GenResult where
  generated_text : Option Str
  generated_token_count : Option Nat
  input_token_count : Option Nat
  stop_reason : Option Str
deriving DecidableEq

/-- The mutable state of the SSE reading loop
(watsonx-provider.ts lines 209-212): `fullText`, `startedText`, and the two
usage counters `output.usage.input` / `output.usage.output`. -/
structure SSEState where
  fullText : Str
  startedText : Bool
  usageInput : Nat
  usageOutput : Nat
deriving DecidableEq

/-- Cost rates declared by a model (`model.cost`), dollars per token-unit. -/
structure CostRates where
  input : ℚ
  output : ℚ
  cacheRead : ℚ
  cacheWrite : ℚ
deriving DecidableEq

/-- The cost breakdown stored in `output.usage.cost`. -/
structure CostBreakdown where
  input : ℚ
  output : ℚ
  cacheRead : ℚ
  cacheWrite : ℚ
  total : ℚ
deriving DecidableEq

/-- The usage record carried by the final `done` message. -/
structure Usage where
  input : Nat
  output : Nat
  totalTokens : Nat
  cost : CostBreakdown
deriving DecidableEq

/-- Events pushed on the `AssistantMessageEventStream` channel.  The
`partial` snapshot references are omitted (they alias the mutable output
message); the data fields relevant to the spec are kept. -/
inductive Event where
  | start : Event
  | text_start (contentIndex : Nat) : Event
  | text_delta (contentIndex : Nat) (delta : Str) : Event
  | text_end (contentIndex : Nat) (content : Str) : Event
  | done (usage : Usage) : Event
  | error (msg : Str) : Event
deriving DecidableEq

/-- Initial loop state (watsonx-provider.ts lines 209-212 with the usage
counters initialised to 0 at lines 137-144). -/
def initSSE : SSEState := { fullText := [], startedText := false, usageInput := 0, usageOutput := 0 }

/-- The generated-text part of one loop iteration (watsonx-provider.ts
lines 239-266).  JavaScript truthiness: `result?.generated_text` is truthy
iff the field is present and non-empty, and `if (newText)` is a test for a
non-empty suffix.  `result.generated_text.slice(fullText.length)` is
`List.drop st.fullText.length t`. -/
def textStep (st : SSEState) (r : GenResult) : SSEState × List Event :=
  match r.generated_text with
  | some t =>
    if t = [] then (st, [])
    else
      let newText := List.drop st.fullText.length t
      if newText = [] then (st, [])
      else
        let st1 : SSEState := { st with startedText := true, fullText := t }
        if st.startedText then (st1, [Event.text_delta 0 newText])
        else (st1, [Event.text_start 0, Event.text_delta 0 newText])
  | none => (st, [])

/-- The usage-counter part of one loop iteration (watsonx-provider.ts lines
268-273).  `if (result?.input_token_count)` is truthy iff the field is
present and non-zero, and likewise for `generated_token_count`. -/
def countStep (st : SSEState) (r : GenResult) : SSEState :=
  let st2 :=
    match r.input_token_count with
    | some n => if n = 0 then st else { st with usageInput := n }
    | none => st
  match r.generated_token_count with
  | some n => if n = 0 then st2 else { st2 with usageOutput := n }
  | none => st2

/-- Processing of one parsed frame, mirroring watsonx-provider.ts lines
239-273: the generated-text block runs first, then the two counter
updates. -/
def processFrame (st : SSEState) (r : GenResult) : SSEState × List Event :=
  (countStep (textStep st r).1 r, (textStep st r).2)

/-- The SSE reading loop over a list of parsed frames, accumulating the
emitted events in order (watsonx-provider.ts lines 215-278). -/
def runFrames : List GenResult → SSEState → SSEState × List Event
  | [], st => (st, [])
  | r :: rs, st =>
    let p := processFrame st r
    let q := runFrames rs p.1
    (q.1, p.2 ++ q.2)

/-- The generated text a frame contributes under JavaScript truthiness:
`none` when the field is absent or the empty string. -/
def frameText (r : GenResult) : Option Str :=
  match r.generated_text with
  | some t => if t = [] then none else some t
  | none => none

/-- The cumulative generated texts carried by a frame sequence. -/
def textsOf (frames : List GenResult) : List Str := frames.filterMap frameText

/-- Text `a` is a prefix of `b` (the cumulative text `b` extends `a`). -/
def strExt (a b : Str) : Bool := decide (List.take a.length b = a)

/-- Each text in the list extends the previous one (monotonically
non-decreasing cumulative text). -/
def monoTexts : List Str → Bool
  | [] => true
  | [_] => true
  | a :: b :: rest => strExt a b && monoTexts (b :: rest)

/-- The deltas carried by `text_delta` events, in emission order. -/
def deltasOfEvents (evs : List Event) : List Str :=
  evs.filterMap fun e =>
    match e with
    | Event.text_delta _ d => some d
    | _ => none

/-- An entry of the module-level token cache
(watsonx-provider.ts lines 27-31). -/
structure TokenCacheEntry where
  token : Str
  expiresAt : Int
deriving DecidableEq

/-- The process-wide token cache, modelled as an association list; `Map.set`
prepends (a later entry for the same key shadows an earlier one, which is
what `Map.get` observes). -/
abbrev Cache := List (Str × TokenCacheEntry)

/-- The lookup `tokenCache.get key`: the most recently set entry for `key`. -/
def lookupCache (k : Str) : Cache → Option TokenCacheEntry
  | [] => none
  | (k', e) :: rest => if k' = k then some e else lookupCache k rest

/-- The cache key: `apiKey.slice(0, 16)` (watsonx-provider.ts line 50). -/
def cacheKeyOf (apiKey : Str) : Str := List.take 16 apiKey

/-- The environment one `getIamToken` call runs in: the current clock value
(`Date.now()`, milliseconds) and the identity endpoint's response to a
token-exchange request — either the thrown failure message (non-ok HTTP
status, lines 71-74) or `(access_token, expires_in)` from the response JSON
(line 76). -/
structure IamEnv where
  now : Int
  exchange : Except Str (Str × Int)

instance {α β : Type} [DecidableEq α] [DecidableEq β] : DecidableEq (Except α β) := fun a b =>
  match a, b with
  | Except.error x, Except.error y =>
    if h : x = y then isTrue (by rw [h]) else isFalse (by simp [h])
  | Except.error _, Except.ok _ => isFalse (by simp)
  | Except.ok _, Except.error _ => isFalse (by simp)
  | Except.ok x, Except.ok y =>
    if h : x = y then isTrue (by rw [h]) else isFalse (by simp [h])

instance : DecidableEq IamEnv := fun a b =>
  if h1 : a.now = b.now then
    if h2 : a.exchange = b.exchange then
      isTrue (by cases a; cases b; simp_all)
    else isFalse (by intro hc; exact h2 (by rw [hc]))
  else isFalse (by intro hc; exact h1 (by rw [hc]))

/-- Network calls and channel emissions, recorded in the order the code
performs them. -/
inductive TraceStep where
  | netTokenExchange : TraceStep
  | netGenerate : TraceStep
  | emit (e : Event) : TraceStep
deriving DecidableEq

/-- The fetch to the IAM identity endpoint and its aftermath
(watsonx-provider.ts lines 58-80): on failure the error message is thrown,
on success the token is cached under `cacheKey` with
`expiresAt = Date.now() + expires_in * 1000` and returned. -/
def runExchange (cacheKey : Str) (cache : Cache) (env : IamEnv) :
    Except Str Str × Cache × List TraceStep :=
  match env.exchange with
  | Except.error msg => (Except.error msg, cache, [TraceStep.netTokenExchange])
  | Except.ok (tok, life) =>
    (Except.ok tok,
     (cacheKey, { token := tok, expiresAt := env.now + life * 1000 }) :: cache,
     [TraceStep.netTokenExchange])

/-- The function `getIamToken` (watsonx-provider.ts lines 49-81): return the cached token
when `cached.expiresAt > Date.now() + 300_000`, otherwise perform one
exchange.  The result triple is (returned value or thrown error, cache
afterwards, network actions performed). -/
def getIamToken (apiKey : Str) (cache : Cache) (env : IamEnv) :
    Except Str Str × Cache × List TraceStep :=
  match lookupCache (cacheKeyOf apiKey) cache with
  | some cached =>
    if env.now + 300000 < cached.expiresAt then (Except.ok cached.token, cache, [])
    else runExchange (cacheKeyOf apiKey) cache env
  | none => runExchange (cacheKeyOf apiKey) cache env

/-- A typed content block of a message (`TextContent` or anything else). -/
inductive ContentBlock where
  | text (t : Str) : ContentBlock
  | nonText : ContentBlock
deriving DecidableEq

/-- Message content: a plain string or a list of typed blocks. -/
inductive MsgContent where
  | str (s : Str) : MsgContent
  | blocks (bs : List ContentBlock) : MsgContent
deriving DecidableEq

/-- Message roles; `toolResult` stands for any role other than user and
assistant, which the builder skips. -/
inductive Role where
  | user : Role
  | assistant : Role
  | toolResult : Role
deriving DecidableEq

/-- One conversation turn. -/
structure Msg where
  role : Role
  content : MsgContent
deriving DecidableEq

/-- The conversation context consumed by `buildWatsonxPrompt`. -/
structure Context where
  systemPrompt : Option Str
  messages : List Msg
deriving DecidableEq

/-- The extraction `.filter(c => c.type === "text").map(c => c.text).join("\n")`
(watsonx-provider.ts lines 100-103 and 106-109). -/
def textBlocksJoined (bs : List ContentBlock) : Str :=
  List.intercalate ['\n']
    (bs.filterMap fun b =>
      match b with
      | ContentBlock.text t => some t
      | ContentBlock.nonText => none)

def userWrap (s : Str) : Str := "<|user|>\n".toList ++ s ++ "\n<|end|>".toList

def asstWrap (s : Str) : Str := "<|assistant|>\n".toList ++ s ++ "\n<|end|>".toList

def sysWrap (s : Str) : Str := "<|system|>\n".toList ++ s ++ "\n<|end|>".toList

/-- The trailing `"<|assistant|>\n"` priming segment (line 115). -/
def trailingSeg : Str := "<|assistant|>\n".toList

/-- JavaScript `String.prototype.trim` restricted to ASCII whitespace. -/
def jsTrim (s : Str) : Str :=
  ((s.dropWhile Char.isWhitespace).reverse.dropWhile Char.isWhitespace).reverse

/-- The per-message segments of the prompt (watsonx-provider.ts lines
95-112).  A user turn handles both string and block-list content; an
assistant turn calls `.filter` on its content unconditionally (line 106), so
a plain-string assistant content throws a TypeError at runtime — modelled as
`none`.  Other roles are silently skipped. -/
def buildParts : List Msg → Option (List Str)
  | [] => some []
  | m :: rest =>
    match m.role, m.content with
    | Role.user, MsgContent.str s => (buildParts rest).map (fun ps => userWrap s :: ps)
    | Role.user, MsgContent.blocks bs =>
      (buildParts rest).map (fun ps => userWrap (textBlocksJoined bs) :: ps)
    | Role.assistant, MsgContent.str _ => none
    | Role.assistant, MsgContent.blocks bs =>
      (buildParts rest).map (fun ps => asstWrap (textBlocksJoined bs) :: ps)
    | Role.toolResult, _ => buildParts rest

/-- The system segment, present when `context.systemPrompt?.trim()` is
truthy (watsonx-provider.ts lines 90-92); note the untrimmed prompt is what
gets wrapped. -/
def sysSegs (ctx : Context) : List Str :=
  match ctx.systemPrompt with
  | some sp => if jsTrim sp = [] then [] else [sysWrap sp]
  | none => []

/-- The function `buildWatsonxPrompt` (watsonx-provider.ts lines 86-118):
`parts.join("\n")` over system segment, message segments and the trailing
priming segment; `none` models the TypeError thrown for a plain-string
assistant content. -/
def buildWatsonxPrompt (ctx : Context) : Option Str :=
  (buildParts ctx.messages).map fun ps =>
    List.intercalate ['\n'] (sysSegs ctx ++ ps ++ [trailingSeg])

/-- Zero pricing, used when the model declares no cost
(watsonx-provider.ts line 285). -/
def zeroRates : CostRates := { input := 0, output := 0, cacheRead := 0, cacheWrite := 0 }

/-- The final usage/cost computation after the reading loop
(watsonx-provider.ts lines 283-294). -/
def finalizeUsage (input output : Nat) (modelCost : Option CostRates) : Usage :=
  let c := modelCost.getD zeroRates
  { input := input
    output := output
    totalTokens := input + output
    cost :=
      { input := (input : ℚ) / 1000000 * c.input
        output := (output : ℚ) / 1000000 * c.output
        cacheRead := 0
        cacheWrite := 0
        total := (input : ℚ) / 1000000 * c.input + (output : ℚ) / 1000000 * c.output } }

/-- The generation endpoint's observed behaviour for one invocation:
either a failure before any SSE frame is processed (non-ok HTTP status,
null body, or a fetch rejection — watsonx-provider.ts lines 182-201), or an
ok streaming response delivering `frames` followed by an optional transport
failure while reading the body. -/
inductive GenResponse where
  | httpError (msg : Str) : GenResponse
  | stream (frames : List GenResult) (readFailure : Option Str) : GenResponse
deriving DecidableEq

/-- Everything one invocation of `streamWatsonx` reads from its arguments
and from the outside world: the `options`/environment credential and
project inputs, the token cache at entry, the identity endpoint's response,
the conversation context, the declared cost of the model, and the generation
endpoint's response. -/
structure StreamInput where
  optApiKey : Option Str
  envApiKey : Option Str
  optProjectId : Option Str
  envProjectId : Option Str
  cache : Cache
  iamEnv : IamEnv
  context : Context
  modelCost : Option CostRates
  genResponse : GenResponse

/-- The resolution `options?.apiKey ?? process.env.WATSONX_API_KEY` (line 151). -/
def resolvedApiKey (inp : StreamInput) : Option Str :=
  match inp.optApiKey with
  | some k => some k
  | none => inp.envApiKey

/-- The resolution `options?.projectId ?? process.env.WATSONX_PROJECT_ID` (line 156). -/
def resolvedProjectId (inp : StreamInput) : Option Str :=
  match inp.optProjectId with
  | some p => some p
  | none => inp.envProjectId

def apiKeyRequiredMsg : Str :=
  "Watsonx API key required. Set WATSONX_API_KEY or pass apiKey option.".toList

def projectIdRequiredMsg : Str :=
  "Watsonx project ID required. Set WATSONX_PROJECT_ID or pass projectId option.".toList

/-- The TypeError thrown by `msg.content.filter` when an assistant turn
carries plain-string content (line 106). -/
def promptTypeErrorMsg : Str := "msg.content.filter is not a function".toList

/-- The trace of the part of `streamWatsonx` that runs after an ok
generation response (watsonx-provider.ts lines 204-311): `start`, the
reading loop's events, then on a clean end of stream `text_end` (if text
was started) and `done`; a transport failure while reading is caught at
line 312 and becomes the terminal `error` instead. -/
def streamTail (frames : List GenResult) (readFailure : Option Str)
    (modelCost : Option CostRates) : List TraceStep :=
  let res := runFrames frames initSSE
  TraceStep.emit Event.start :: res.2.map TraceStep.emit ++
    match readFailure with
    | some msg => [TraceStep.emit (Event.error msg)]
    | none =>
      (if res.1.startedText then [TraceStep.emit (Event.text_end 0 res.1.fullText)] else []) ++
        [TraceStep.emit (Event.done (finalizeUsage res.1.usageInput res.1.usageOutput modelCost))]

/-- The trace of one invocation of `streamWatsonx`
(watsonx-provider.ts lines 149-321).  Every `throw` inside the `try` block
lands in the `catch` at line 312, which emits the terminal `error` event.
The checks run in source order: credential (line 151, with JavaScript
falsiness rejecting an empty string), project id (line 156), `getIamToken`
(line 164), `buildWatsonxPrompt` (line 170), the generation request (lines
182-201), then the SSE loop. -/
def streamWatsonx (inp : StreamInput) : List TraceStep :=
  match resolvedApiKey inp with
  | none => [TraceStep.emit (Event.error apiKeyRequiredMsg)]
  | some k =>
    if k = [] then [TraceStep.emit (Event.error apiKeyRequiredMsg)]
    else
      match resolvedProjectId inp with
      | none => [TraceStep.emit (Event.error projectIdRequiredMsg)]
      | some p =>
        if p = [] then [TraceStep.emit (Event.error projectIdRequiredMsg)]
        else
          let tok := getIamToken k inp.cache inp.iamEnv
          match tok.1 with
          | Except.error msg => tok.2.2 ++ [TraceStep.emit (Event.error msg)]
          | Except.ok _ =>
            match buildWatsonxPrompt inp.context with
            | none => tok.2.2 ++ [TraceStep.emit (Event.error promptTypeErrorMsg)]
            | some _ =>
              match inp.genResponse with
              | GenResponse.httpError msg =>
                tok.2.2 ++ [TraceStep.netGenerate, TraceStep.emit (Event.error msg)]
              | GenResponse.stream frames readFailure =>
                tok.2.2 ++ TraceStep.netGenerate ::
                  streamTail frames readFailure inp.modelCost

/-- The events an invocation pushes on its channel, in order. -/
def eventsOfTrace (tr : List TraceStep) : List Event :=
  tr.filterMap fun a =>
    match a with
    | TraceStep.emit e => some e
    | _ => none

/-- Terminal events: `done` and `error`. -/
def isTerminal : Event → Bool
  | Event.done _ => true
  | Event.error _ => true
  | _ => false

/-- The deltas emitted over a whole invocation. -/
def deltasOfTrace (tr : List TraceStep) : List Str := deltasOfEvents (eventsOfTrace tr)

/-- A frame carrying only cumulative generated text. -/
def frameOfText (t : Str) : GenResult :=
  { generated_text := some t, generated_token_count := none, input_token_count := none,
    stop_reason := none }

/-- The example frame sequence of the spec: cumulative texts "Hel", "Hello",
"Hello!", the last frame also carrying the token counters. -/
def framesHello : List GenResult :=
  [frameOfText "Hel".toList, frameOfText "Hello".toList,
   { generated_text := some "Hello!".toList, generated_token_count := some 3,
     input_token_count := some 5, stop_reason := some "eos_token".toList }]

def iamEnvOk : IamEnv := { now := 0, exchange := Except.ok ("token-hello".toList, 3600) }

def ctxSimple : Context :=
  { systemPrompt := none,
    messages := [{ role := Role.user, content := MsgContent.str "hi".toList }] }

/-- A fully successful invocation on the example frames. -/
def inpHello : StreamInput :=
  { optApiKey := some "test-api-key-0123456789".toList
    envApiKey := none
    optProjectId := some "proj-1".toList
    envProjectId := none
    cache := []
    iamEnv := iamEnvOk
    context := ctxSimple
    modelCost := none
    genResponse := GenResponse.stream framesHello none }

/-- A state in which the cumulative text "Hello" has been observed. -/
def stHello : SSEState :=
  { fullText := "Hello".toList, startedText := true, usageInput := 0, usageOutput := 0 }

/-- A state with nonzero usage counters already recorded. -/
def stCounters : SSEState :=
  { fullText := [], startedText := false, usageInput := 7, usageOutput := 9 }

/-- A frame reporting both token counters as zero. -/
def frameZeroCounts : GenResult :=
  { generated_text := none, generated_token_count := some 0, input_token_count := some 0,
    stop_reason := none }

/-- A credential whose cached entry is still far from expiry. -/
def credCached : Str := "0123456789abcdefXYZ".toList

/-- A cache holding a fresh entry for `credCached` at clock 0. -/
def cacheWithFresh : Cache :=
  [(List.take 16 credCached, { token := "cached-token".toList, expiresAt := 10000000 })]

def iamEnvFresh : IamEnv := { now := 0, exchange := Except.ok ("new-token".toList, 3600) }

/-- Credentials sharing their first 16 characters. -/
def credA : Str := "AAAAAAAAAAAAAAAA-one".toList

def credB : Str := "AAAAAAAAAAAAAAAA-two".toList

def iamEnvA : IamEnv := { now := 0, exchange := Except.ok ("token-for-A".toList, 3600) }

def iamEnvB : IamEnv := { now := 0, exchange := Except.ok ("token-for-B".toList, 3600) }

/-- The cache after an exchange for `credA`. -/
def cacheAfterA : Cache := (getIamToken credA [] iamEnvA).2.1

/-- Whether message content is a block list (as opposed to a plain
string). -/
def isBlocks : MsgContent → Bool
  | MsgContent.str _ => false
  | MsgContent.blocks _ => true

/-- The text the spec prescribes extracting from message content: the
plain string itself, or the text blocks joined by a single newline with
non-text blocks dropped. -/
def specText : MsgContent → Str
  | MsgContent.str s => s
  | MsgContent.blocks bs => textBlocksJoined bs

/-- The segment the spec prescribes for one message: the role-appropriate
marker pair wrapped around the extracted text.  (Second definition written
from the words of the spec, to be compared with `buildParts`.) -/
def specSegment (m : Msg) : Str :=
  match m.role with
  | Role.user => userWrap (specText m.content)
  | Role.assistant => asstWrap (specText m.content)
  | Role.toolResult => []

/-- A context whose single assistant turn carries plain-string content. -/
def ctxAsstStr : Context :=
  { systemPrompt := none,
    messages := [{ role := Role.assistant, content := MsgContent.str "hi".toList }] }

/-- A context mixing a plain-string user turn with a block-list assistant
turn containing a non-text block. -/
def ctxMixed : Context :=
  { systemPrompt := some "Be kind.".toList,
    messages :=
      [{ role := Role.user, content := MsgContent.str "hi".toList },
       { role := Role.assistant,
         content := MsgContent.blocks
           [ContentBlock.text "hello".toList, ContentBlock.nonText,
            ContentBlock.text "there".toList] }] }

/-- The property C5 states: every `start` emission precedes every network
action in the trace. -/
def startBeforeNet (tr : List TraceStep) : Prop :=
  ∀ i : Fin tr.length, tr.get i = TraceStep.emit Event.start →
    ∀ j : Fin tr.length,
      (tr.get j = TraceStep.netTokenExchange ∨ tr.get j = TraceStep.netGenerate) →
      (i : Nat) < (j : Nat)

instance (tr : List TraceStep) : Decidable (startBeforeNet tr) := by
  unfold startBeforeNet
  infer_instance

/-- An invocation with no credential anywhere. -/
def inpNoKey : StreamInput :=
  { optApiKey := none, envApiKey := none, optProjectId := some "proj-1".toList,
    envProjectId := none, cache := [], iamEnv := iamEnvOk, context := ctxSimple,
    modelCost := none, genResponse := GenResponse.stream [] none }

/-- An invocation with a credential but no project id anywhere. -/
def inpNoProject : StreamInput :=
  { optApiKey := some "some-key".toList, envApiKey := none, optProjectId := none,
    envProjectId := none, cache := [], iamEnv := iamEnvOk, context := ctxSimple,
    modelCost := none, genResponse := GenResponse.stream [] none }

/-- The example pricing of the spec: $0.05 and $0.08 per million tokens. -/
def costRatesEx : CostRates := { input := 1/20, output := 2/25, cacheRead := 0, cacheWrite := 0 }

/-- A frame reporting the example counters of the spec. -/
def framesMillion : List GenResult :=
  [{ generated_text := some "ok".toList, generated_token_count := some 500000,
     input_token_count := some 1000000, stop_reason := none }]

/-- A successful invocation with the example pricing and counters. -/
def inpCost : StreamInput :=
  { optApiKey := some "test-api-key-0123456789".toList, envApiKey := none,
    optProjectId := some "proj-1".toList, envProjectId := none, cache := [],
    iamEnv := iamEnvOk, context := ctxSimple, modelCost := some costRatesEx,
    genResponse := GenResponse.stream framesMillion none }

/-- The usage carried by the `done` event of the example invocation. -/
def usageEx : Usage := finalizeUsage 1000000 500000 (some costRatesEx)

example : processFrame initSSE { generated_text := some "Hel".toList, generated_token_count := none, input_token_count := none, stop_reason := none } =
    ({ fullText := "Hel".toList, startedText := true, usageInput := 0, usageOutput := 0 },
     [Event.text_start 0, Event.text_delta 0 "Hel".toList]) := by decide

example : monoTexts ["Hel".toList, "Hello".toList, "Hello!".toList] = true := by decide

lemma strExt_append (a b : Str) (h : strExt a b = true) :
    a ++ List.drop a.length b = b := by
  have h' : List.take a.length b = a := by simpa [strExt] using h
  conv_rhs => rw [← List.take_append_drop a.length b]
  rw [h']

lemma deltasOfEvents_append (l₁ l₂ : List Event) :
    deltasOfEvents (l₁ ++ l₂) = deltasOfEvents l₁ ++ deltasOfEvents l₂ := by
  simp [deltasOfEvents, List.filterMap_append]

lemma countStep_fullText (st : SSEState) (r : GenResult) :
    (countStep st r).fullText = st.fullText := by
  unfold countStep
  cases hic : r.input_token_count with
  | none =>
    cases hgc : r.generated_token_count with
    | none => rfl
    | some m => by_cases hm : m = 0 <;> simp [hm]
  | some n =>
    cases hgc : r.generated_token_count with
    | none => by_cases hn : n = 0 <;> simp [hn]
    | some m => by_cases hn : n = 0 <;> by_cases hm : m = 0 <;> simp [hn, hm]

lemma countStep_startedText (st : SSEState) (r : GenResult) :
    (countStep st r).startedText = st.startedText := by
  unfold countStep
  cases hic : r.input_token_count with
  | none =>
    cases hgc : r.generated_token_count with
    | none => rfl
    | some m => by_cases hm : m = 0 <;> simp [hm]
  | some n =>
    cases hgc : r.generated_token_count with
    | none => by_cases hn : n = 0 <;> simp [hn]
    | some m => by_cases hn : n = 0 <;> by_cases hm : m = 0 <;> simp [hn, hm]

lemma textStep_notext (st : SSEState) (r : GenResult) (ht : frameText r = none) :
    textStep st r = (st, []) := by
  unfold textStep
  cases hg : r.generated_text with
  | none => rfl
  | some t =>
    unfold frameText at ht
    rw [hg] at ht
    by_cases h0 : t = []
    · simp [h0]
    · simp [h0] at ht

lemma textStep_spec (st : SSEState) (r : GenResult) (t : Str) (ht : frameText r = some t)
    (hext : strExt st.fullText t = true) :
    (textStep st r).1.fullText = t ∧
    st.fullText ++ (deltasOfEvents (textStep st r).2).flatten = t := by
  unfold frameText at ht
  cases hg : r.generated_text with
  | none => rw [hg] at ht; simp at ht
  | some t' =>
    rw [hg] at ht
    by_cases h0 : t' = []
    · simp [h0] at ht
    · simp [h0] at ht
      subst ht
      have happ : st.fullText ++ List.drop st.fullText.length t' = t' := strExt_append _ _ hext
      unfold textStep
      rw [hg]
      by_cases hnew : List.drop st.fullText.length t' = []
      · have hfix : t' = st.fullText := by
          rw [← happ, hnew, List.append_nil]
        simp [h0, hnew, deltasOfEvents, hfix]
      · by_cases hstart : st.startedText <;>
          simp [h0, hnew, hstart, deltasOfEvents, happ]

lemma processFrame_fullText (st : SSEState) (r : GenResult) :
    (processFrame st r).1.fullText = (textStep st r).1.fullText := by
  unfold processFrame
  exact countStep_fullText _ _

lemma textsOf_cons_none (r : GenResult) (rs : List GenResult) (h : frameText r = none) :
    textsOf (r :: rs) = textsOf rs := by
  simp [textsOf, List.filterMap_cons, h]

lemma textsOf_cons_some (r : GenResult) (rs : List GenResult) (t : Str)
    (h : frameText r = some t) :
    textsOf (r :: rs) = t :: textsOf rs := by
  simp [textsOf, List.filterMap_cons, h]

lemma runFrames_concat (frames : List GenResult) : ∀ st : SSEState,
    monoTexts (st.fullText :: textsOf frames) = true →
    st.fullText ++ (deltasOfEvents (runFrames frames st).2).flatten =
      (runFrames frames st).1.fullText := by
  induction frames with
  | nil => intro st _; simp [runFrames, deltasOfEvents]
  | cons r rs ih =>
    intro st hmono
    have h1 : (runFrames (r :: rs) st).1 = (runFrames rs (processFrame st r).1).1 := by
      simp [runFrames]
    have h2 : (runFrames (r :: rs) st).2 =
        (processFrame st r).2 ++ (runFrames rs (processFrame st r).1).2 := by
      simp [runFrames]
    rw [h1, h2, deltasOfEvents_append, List.flatten_append, ← List.append_assoc]
    cases hft : frameText r with
    | none =>
      rw [textsOf_cons_none r rs hft] at hmono
      have hts := textStep_notext st r hft
      have hfull : (processFrame st r).1.fullText = st.fullText := by
        rw [processFrame_fullText, hts]
      have hevs : (processFrame st r).2 = [] := by
        unfold processFrame; rw [hts]
      rw [hevs]
      simp only [deltasOfEvents, List.filterMap_nil, List.flatten_nil, List.append_nil]
      have hres := ih (processFrame st r).1 (by rw [hfull]; exact hmono)
      rw [hfull] at hres
      exact hres
    | some t =>
      rw [textsOf_cons_some r rs t hft] at hmono
      have hmono' : strExt st.fullText t = true ∧ monoTexts (t :: textsOf rs) = true := by
        cases hrest : textsOf rs with
        | nil =>
          rw [hrest] at hmono
          refine ⟨?_, by simp [monoTexts]⟩
          simpa [monoTexts] using hmono
        | cons u us =>
          rw [hrest] at hmono
          simp only [monoTexts, Bool.and_eq_true] at hmono ⊢
          exact ⟨hmono.1, hmono.2⟩
      obtain ⟨hfull0, hconc⟩ := textStep_spec st r t hft hmono'.1
      have hfull : (processFrame st r).1.fullText = t := by
        rw [processFrame_fullText]; exact hfull0
      have hevs : (processFrame st r).2 = (textStep st r).2 := rfl
      rw [hevs, hconc]
      have hres := ih (processFrame st r).1 (by rw [hfull]; exact hmono'.2)
      rw [hfull] at hres
      exact hres

lemma textStep_events_shape (st : SSEState) (r : GenResult) :
    ∀ e ∈ (textStep st r).2, e = Event.text_start 0 ∨ ∃ d, e = Event.text_delta 0 d := by
  unfold textStep
  cases hg : r.generated_text with
  | none => simp
  | some t =>
    by_cases h0 : t = []
    · simp [h0]
    · by_cases hnew : List.drop st.fullText.length t = []
      · simp [h0, hnew]
      · by_cases hstart : st.startedText <;> simp [h0, hnew, hstart]

lemma runFrames_events_shape (frames : List GenResult) : ∀ st : SSEState,
    ∀ e ∈ (runFrames frames st).2, e = Event.text_start 0 ∨ ∃ d, e = Event.text_delta 0 d := by
  induction frames with
  | nil => intro st e he; simp [runFrames] at he
  | cons r rs ih =>
    intro st e he
    have h2 : (runFrames (r :: rs) st).2 =
        (processFrame st r).2 ++ (runFrames rs (processFrame st r).1).2 := by
      simp [runFrames]
    rw [h2, List.mem_append] at he
    cases he with
    | inl h => exact textStep_events_shape st r e h
    | inr h => exact ih (processFrame st r).1 e h

lemma eventsOfTrace_append (l₁ l₂ : List TraceStep) :
    eventsOfTrace (l₁ ++ l₂) = eventsOfTrace l₁ ++ eventsOfTrace l₂ := by
  simp [eventsOfTrace, List.filterMap_append]

lemma eventsOfTrace_map_emit (l : List Event) :
    eventsOfTrace (l.map TraceStep.emit) = l := by
  induction l with
  | nil => rfl
  | cons e es ih => simp only [eventsOfTrace, List.map_cons, List.filterMap_cons] at ih ⊢; rw [ih]

lemma eventsOfTrace_nil_of_net (acts : List TraceStep)
    (h : ∀ a ∈ acts, a = TraceStep.netTokenExchange ∨ a = TraceStep.netGenerate) :
    eventsOfTrace acts = [] := by
  induction acts with
  | nil => rfl
  | cons a rest ih =>
    have ha := h a (List.mem_cons_self a rest)
    have hrest := ih fun x hx => h x (List.mem_cons_of_mem a hx)
    rcases ha with ha | ha <;>
      · subst ha
        simp only [eventsOfTrace, List.filterMap_cons] at hrest ⊢
        exact hrest

lemma getIamToken_actions (k : Str) (c : Cache) (e : IamEnv) :
    (getIamToken k c e).2.2 = [] ∨ (getIamToken k c e).2.2 = [TraceStep.netTokenExchange] := by
  unfold getIamToken runExchange
  cases lookupCache (cacheKeyOf k) c with
  | none => cases e.exchange with
    | error m => right; rfl
    | ok v => right; rfl
  | some cached =>
    by_cases hexp : e.now + 300000 < cached.expiresAt
    · left; simp [hexp]
    · cases e.exchange with
      | error m => right; simp [hexp]
      | ok v => right; simp [hexp]

lemma monoTexts_nil_cons (ts : List Str) : monoTexts ([] :: ts) = monoTexts ts := by
  cases ts with
  | nil => rfl
  | cons a rest => simp [monoTexts, strExt]

lemma streamWatsonx_shape (inp : StreamInput) :
    (∃ acts msg, streamWatsonx inp = acts ++ [TraceStep.emit (Event.error msg)] ∧
        ∀ a ∈ acts, a = TraceStep.netTokenExchange ∨ a = TraceStep.netGenerate) ∨
    (∃ acts frames rf, inp.genResponse = GenResponse.stream frames rf ∧
        streamWatsonx inp = acts ++ streamTail frames rf inp.modelCost ∧
        ∀ a ∈ acts, a = TraceStep.netTokenExchange ∨ a = TraceStep.netGenerate) := by
  unfold streamWatsonx
  cases hk : resolvedApiKey inp with
  | none => left; exact ⟨[], apiKeyRequiredMsg, rfl, by simp⟩
  | some k =>
    by_cases hk0 : k = []
    · left
      refine ⟨[], apiKeyRequiredMsg, ?_, by simp⟩
      simp [hk0]
    · simp only [if_neg hk0]
      cases hp : resolvedProjectId inp with
      | none => left; exact ⟨[], projectIdRequiredMsg, rfl, by simp⟩
      | some p =>
        by_cases hp0 : p = []
        · left
          refine ⟨[], projectIdRequiredMsg, ?_, by simp⟩
          simp [hp0]
        · simp only [if_neg hp0]
          have hacts := getIamToken_actions k inp.cache inp.iamEnv
          have hactsnet : ∀ a ∈ (getIamToken k inp.cache inp.iamEnv).2.2,
              a = TraceStep.netTokenExchange ∨ a = TraceStep.netGenerate := by
            rcases hacts with h | h <;> rw [h] <;> simp
          cases htok : (getIamToken k inp.cache inp.iamEnv).1 with
          | error msg => left; exact ⟨(getIamToken k inp.cache inp.iamEnv).2.2, msg, rfl, hactsnet⟩
          | ok t =>
            cases hpr : buildWatsonxPrompt inp.context with
            | none =>
              left
              exact ⟨(getIamToken k inp.cache inp.iamEnv).2.2, promptTypeErrorMsg, rfl, hactsnet⟩
            | some q =>
              cases hgen : inp.genResponse with
              | httpError msg =>
                left
                refine ⟨(getIamToken k inp.cache inp.iamEnv).2.2 ++ [TraceStep.netGenerate],
                  msg, by simp, ?_⟩
                intro a ha
                rw [List.mem_append] at ha
                rcases ha with ha | ha
                · exact hactsnet a ha
                · right; simpa using ha
              | stream frames rf =>
                right
                refine ⟨(getIamToken k inp.cache inp.iamEnv).2.2 ++ [TraceStep.netGenerate],
                  frames, rf, rfl, by simp, ?_⟩
                intro a ha
                rw [List.mem_append] at ha
                rcases ha with ha | ha
                · exact hactsnet a ha
                · right; simpa using ha

lemma eventsOfStreamTail_some (frames : List GenResult) (msg : Str) (mc : Option CostRates) :
    eventsOfTrace (streamTail frames (some msg) mc) =
      (Event.start :: (runFrames frames initSSE).2) ++ [Event.error msg] := by
  unfold streamTail
  simp only [eventsOfTrace, List.filterMap_cons, List.filterMap_append]
  rw [show (List.filterMap _ ((runFrames frames initSSE).2.map TraceStep.emit) : List Event) =
      eventsOfTrace ((runFrames frames initSSE).2.map TraceStep.emit) from rfl,
    eventsOfTrace_map_emit]
  rfl

lemma eventsOfStreamTail_none (frames : List GenResult) (mc : Option CostRates) :
    eventsOfTrace (streamTail frames none mc) =
      (Event.start :: (runFrames frames initSSE).2) ++
        ((if (runFrames frames initSSE).1.startedText then
            [Event.text_end 0 (runFrames frames initSSE).1.fullText]
          else []) ++
          [Event.done (finalizeUsage (runFrames frames initSSE).1.usageInput
            (runFrames frames initSSE).1.usageOutput mc)]) := by
  unfold streamTail
  by_cases hstart : (runFrames frames initSSE).1.startedText <;>
    simp only [hstart, if_true, if_false, eventsOfTrace, List.filterMap_cons,
      List.filterMap_append] <;>
    rw [show (List.filterMap _ ((runFrames frames initSSE).2.map TraceStep.emit) : List Event) =
        eventsOfTrace ((runFrames frames initSSE).2.map TraceStep.emit) from rfl,
      eventsOfTrace_map_emit] <;>
    rfl

lemma getLast?_emit_chain (a : Event) (mid : List Event) (z : Event) :
    (a :: (mid ++ [z])).getLast? = some z := by
  rw [← List.cons_append, List.getLast?_concat]

/-- C2: every invocation emits exactly one terminal event (`done` or
`error`), and it is the last event on the channel. -/
theorem C2_single_terminal (inp : StreamInput) :
    (eventsOfTrace (streamWatsonx inp)).countP (fun e => isTerminal e) = 1 ∧
    ∃ e, (eventsOfTrace (streamWatsonx inp)).getLast? = some e ∧ isTerminal e = true := by
  rcases streamWatsonx_shape inp with ⟨acts, msg, heq, hnet⟩ | ⟨acts, frames, rf, hgen, heq, hnet⟩
  · rw [heq, eventsOfTrace_append, eventsOfTrace_nil_of_net acts hnet, List.nil_append]
    refine ⟨by simp [eventsOfTrace, List.filterMap_cons, List.countP_cons, isTerminal], ?_⟩
    exact ⟨Event.error msg, by simp [eventsOfTrace, List.filterMap_cons], rfl⟩
  · have hcount0 : (runFrames frames initSSE).2.countP (fun e => isTerminal e) = 0 := by
      refine List.countP_eq_zero.mpr ?_
      intro e he
      rcases runFrames_events_shape frames initSSE e he with h | ⟨d, h⟩ <;> subst h <;> simp [isTerminal]
    cases rf with
    | some m =>
      rw [heq, eventsOfTrace_append, eventsOfTrace_nil_of_net acts hnet, List.nil_append,
        eventsOfStreamTail_some]
      constructor
      · rw [List.countP_append, List.countP_cons, hcount0]
        simp [isTerminal, List.countP_cons]
      · exact ⟨Event.error m, List.getLast?_concat _, rfl⟩
    | none =>
      rw [heq, eventsOfTrace_append, eventsOfTrace_nil_of_net acts hnet, List.nil_append,
        eventsOfStreamTail_none]
      constructor
      · rw [List.countP_append, List.countP_cons, hcount0, List.countP_append]
        by_cases hstart : (runFrames frames initSSE).1.startedText <;>
          simp [hstart, isTerminal, List.countP_cons]
      · refine ⟨Event.done (finalizeUsage (runFrames frames initSSE).1.usageInput
          (runFrames frames initSSE).1.usageOutput inp.modelCost), ?_, rfl⟩
        rw [← List.append_assoc]
        exact List.getLast?_concat _

lemma deltasOfEvents_cons_start (l : List Event) :
    deltasOfEvents (Event.start :: l) = deltasOfEvents l := by
  simp [deltasOfEvents, List.filterMap_cons]

lemma streamTail_eq_some (frames : List GenResult) (m : Str) (mc : Option CostRates) :
    streamTail frames (some m) mc =
      (TraceStep.emit Event.start :: (runFrames frames initSSE).2.map TraceStep.emit) ++
        [TraceStep.emit (Event.error m)] := by
  unfold streamTail
  rfl

lemma streamTail_eq_none (frames : List GenResult) (mc : Option CostRates) :
    streamTail frames none mc =
      (TraceStep.emit Event.start :: (runFrames frames initSSE).2.map TraceStep.emit) ++
        ((if (runFrames frames initSSE).1.startedText then
            [TraceStep.emit (Event.text_end 0 (runFrames frames initSSE).1.fullText)]
          else []) ++
          [TraceStep.emit (Event.done (finalizeUsage (runFrames frames initSSE).1.usageInput
            (runFrames frames initSSE).1.usageOutput mc))]) := by
  unfold streamTail
  rfl

lemma text_end_mem_streamTail (frames : List GenResult) (rf : Option Str) (mc : Option CostRates)
    (i : Nat) (c : Str)
    (h : TraceStep.emit (Event.text_end i c) ∈ streamTail frames rf mc) :
    i = 0 ∧ c = (runFrames frames initSSE).1.fullText := by
  cases rf with
  | some m =>
    rw [streamTail_eq_some, List.mem_append] at h
    rcases h with h | h
    · rcases List.mem_cons.mp h with h | h
      · simp at h
      · rw [List.mem_map] at h
        obtain ⟨e, he, heq⟩ := h
        rcases runFrames_events_shape frames initSSE e he with h' | ⟨d, h'⟩ <;> subst h' <;>
          simp at heq
    · simp at h
  | none =>
    rw [streamTail_eq_none, List.mem_append] at h
    rcases h with h | h
    · rcases List.mem_cons.mp h with h | h
      · simp at h
      · rw [List.mem_map] at h
        obtain ⟨e, he, heq⟩ := h
        rcases runFrames_events_shape frames initSSE e he with h' | ⟨d, h'⟩ <;> subst h' <;>
          simp at heq
    · rw [List.mem_append] at h
      rcases h with h | h
      · by_cases hstart : (runFrames frames initSSE).1.startedText
        · rw [if_pos hstart] at h
          simp at h
          exact h
        · rw [if_neg hstart] at h
          simp at h
      · simp at h

/-- C1: for every invocation whose generation response is an SSE frame
sequence with monotonically non-decreasing cumulative generated text, read
to a clean end of stream, the concatenation (in emission order) of all
`text_delta` payloads equals the final cumulative text carried by the
`text_end` event. -/
theorem C1_delta_concat (inp : StreamInput) (frames : List GenResult)
    (hgen : inp.genResponse = GenResponse.stream frames none)
    (hmono : monoTexts (textsOf frames) = true) :
    ∀ i c, TraceStep.emit (Event.text_end i c) ∈ streamWatsonx inp →
      (deltasOfTrace (streamWatsonx inp)).flatten = c := by
  intro i c hmem
  rcases streamWatsonx_shape inp with ⟨acts, msg, heq, hnet⟩ | ⟨acts, frames', rf, hgen', heq, hnet⟩
  · rw [heq, List.mem_append] at hmem
    rcases hmem with h | h
    · rcases hnet _ h with h' | h' <;> simp at h'
    · simp at h
  · rw [hgen] at hgen'
    injection hgen' with h1 h2
    subst h1
    subst h2
    rw [heq, List.mem_append] at hmem
    have hdel : deltasOfTrace (streamWatsonx inp) = deltasOfEvents (runFrames frames initSSE).2 := by
      rw [deltasOfTrace, heq, eventsOfTrace_append, eventsOfTrace_nil_of_net acts hnet,
        List.nil_append, eventsOfStreamTail_none, deltasOfEvents_append, deltasOfEvents_cons_start]
      by_cases hstart : (runFrames frames initSSE).1.startedText <;>
        simp [hstart, deltasOfEvents_append, deltasOfEvents, List.filterMap_cons]
    rcases hmem with h | h
    · rcases hnet _ h with h' | h' <;> simp at h'
    · obtain ⟨hi, hc⟩ := text_end_mem_streamTail frames none inp.modelCost i c h
      subst hc
      rw [hdel]
      have hconc := runFrames_concat frames initSSE
        (by rw [show initSSE.fullText = [] from rfl, monoTexts_nil_cons]; exact hmono)
      rw [show initSSE.fullText = [] from rfl, List.nil_append] at hconc
      exact hconc

example : deltasOfTrace (streamWatsonx inpHello) =
    ["Hel".toList, "lo".toList, "!".toList] := by decide

example : TraceStep.emit (Event.text_end 0 "Hello!".toList) ∈ streamWatsonx inpHello := by decide

/-- Witness for C1 at the example given in the spec: deltas "Hel", "lo", "!"
concatenate to the `text_end` content "Hello!". -/
theorem C1_witness :
    (deltasOfTrace (streamWatsonx inpHello)).flatten = "Hello!".toList :=
  C1_delta_concat inpHello framesHello rfl (by decide) 0 "Hello!".toList (by decide)

lemma textStep_usage (st : SSEState) (r : GenResult) :
    (textStep st r).1.usageInput = st.usageInput ∧
    (textStep st r).1.usageOutput = st.usageOutput := by
  unfold textStep
  cases hg : r.generated_text with
  | none => exact ⟨rfl, rfl⟩
  | some t =>
    by_cases h0 : t = []
    · simp [h0]
    · by_cases hnew : List.drop st.fullText.length t = []
      · simp [h0, hnew]
      · by_cases hstart : st.startedText <;> simp [h0, hnew, hstart]

/-- C7: a frame whose generated text is no longer than the text already
observed produces no `text_delta` event (indeed no event at all) and leaves
the cumulative text unchanged — the suffix computation clamps to the empty
delta rather than failing. -/
theorem C7_short_frame_clamps (st : SSEState) (r : GenResult) (t : Str)
    (hgen : r.generated_text = some t) (hle : t.length ≤ st.fullText.length) :
    (processFrame st r).2 = [] ∧
    (∀ i d, Event.text_delta i d ∉ (processFrame st r).2) ∧
    (processFrame st r).1.fullText = st.fullText := by
  have hts : textStep st r = (st, []) := by
    unfold textStep
    rw [hgen]
    by_cases h0 : t = []
    · simp [h0]
    · simp [h0, List.drop_eq_nil_of_le hle]
  refine ⟨?_, ?_, ?_⟩
  · show (textStep st r).2 = []
    rw [hts]
  · intro i d
    show Event.text_delta i d ∉ (textStep st r).2
    rw [hts]
    simp
  · rw [processFrame_fullText, hts]

/-- Witness for C7: a frame reporting "He" after "Hello" was observed
yields no events and leaves the state alone. -/
theorem C7_witness : (processFrame stHello (frameOfText "He".toList)).2 = [] :=
  (C7_short_frame_clamps stHello (frameOfText "He".toList) "He".toList rfl (by decide)).1

lemma countStep_input_zero (st : SSEState) (r : GenResult)
    (h : r.input_token_count = some 0) :
    countStep st r = countStep st { r with input_token_count := none } := by
  unfold countStep
  rw [h]
  rfl

lemma countStep_output_zero (st : SSEState) (r : GenResult)
    (h : r.generated_token_count = some 0) :
    countStep st r = countStep st { r with generated_token_count := none } := by
  unfold countStep
  rw [h]
  cases hic : r.input_token_count <;> rfl

lemma countStep_usageInput (st : SSEState) (r : GenResult)
    (h : r.input_token_count = some 0 ∨ r.input_token_count = none) :
    (countStep st r).usageInput = st.usageInput := by
  unfold countStep
  rcases h with h | h <;> rw [h] <;>
    cases hgc : r.generated_token_count with
    | none => rfl
    | some m => by_cases hm : m = 0 <;> simp [hm]

lemma countStep_usageOutput (st : SSEState) (r : GenResult)
    (h : r.generated_token_count = some 0 ∨ r.generated_token_count = none) :
    (countStep st r).usageOutput = st.usageOutput := by
  unfold countStep
  rcases h with h | h <;> rw [h] <;>
    cases hic : r.input_token_count with
    | none => rfl
    | some n => by_cases hn : n = 0 <;> simp [hn]

/-- C10: a frame reporting `input_token_count` 0 or
`generated_token_count` 0 leaves the corresponding usage counter unchanged
and is processed exactly as if the field were absent. -/
theorem C10_zero_counter_ignored (st : SSEState) (r : GenResult) :
    (r.input_token_count = some 0 →
      (processFrame st r).1.usageInput = st.usageInput ∧
      processFrame st r = processFrame st { r with input_token_count := none }) ∧
    (r.generated_token_count = some 0 →
      (processFrame st r).1.usageOutput = st.usageOutput ∧
      processFrame st r = processFrame st { r with generated_token_count := none }) := by
  constructor
  · intro h
    constructor
    · show (countStep (textStep st r).1 r).usageInput = st.usageInput
      rw [countStep_usageInput _ r (Or.inl h)]
      exact (textStep_usage st r).1
    · show (countStep (textStep st r).1 r, (textStep st r).2) = _
      rw [countStep_input_zero _ r h]
      rfl
  · intro h
    constructor
    · show (countStep (textStep st r).1 r).usageOutput = st.usageOutput
      rw [countStep_usageOutput _ r (Or.inl h)]
      exact (textStep_usage st r).2
    · show (countStep (textStep st r).1 r, (textStep st r).2) = _
      rw [countStep_output_zero _ r h]
      rfl

/-- Witness for C10: a frame carrying counter value 0 after nonzero
counters were recorded leaves them at their previous values. -/
theorem C10_witness : (processFrame stCounters frameZeroCounts).1.usageInput = 7 :=
  ((C10_zero_counter_ignored stCounters frameZeroCounts).1 rfl).1

/-- C6: `getIamToken` returns the cached token with no network action when
the cached entry expires more than 5 minutes (300000 ms) after the current
time; otherwise (entry absent or within the safety margin) it performs
exactly one token exchange and, on success, stores
`{token, expiresAt = now + expires_in * 1000}` under the key and returns
the new token. -/
theorem C6_token_cache_policy (apiKey : Str) (cache : Cache) (env : IamEnv) :
    (∀ c, lookupCache (cacheKeyOf apiKey) cache = some c →
       env.now + 300000 < c.expiresAt →
       getIamToken apiKey cache env = (Except.ok c.token, cache, [])) ∧
    ((lookupCache (cacheKeyOf apiKey) cache = none ∨
      ∃ c, lookupCache (cacheKeyOf apiKey) cache = some c ∧ ¬ env.now + 300000 < c.expiresAt) →
      (getIamToken apiKey cache env).2.2 = [TraceStep.netTokenExchange] ∧
      ∀ tok life, env.exchange = Except.ok (tok, life) →
        getIamToken apiKey cache env =
          (Except.ok tok,
           (cacheKeyOf apiKey, { token := tok, expiresAt := env.now + life * 1000 }) :: cache,
           [TraceStep.netTokenExchange])) := by
  constructor
  · intro c hc hfresh
    unfold getIamToken
    rw [hc]
    simp [hfresh]
  · intro hmiss
    have hrun : getIamToken apiKey cache env = runExchange (cacheKeyOf apiKey) cache env := by
      unfold getIamToken
      rcases hmiss with h | ⟨c, hc, hstale⟩
      · rw [h]
      · rw [hc]
        simp [hstale]
    constructor
    · rw [hrun]
      unfold runExchange
      cases hex : env.exchange with
      | error m => rfl
      | ok v => rfl
    · intro tok life hex
      rw [hrun]
      unfold runExchange
      rw [hex]

/-- Witness for C6: the fresh entry is returned without a network action,
and on an empty cache one exchange runs and caches
`expiresAt = 0 + 3600 * 1000`. -/
theorem C6_witness :
    getIamToken credCached cacheWithFresh iamEnvFresh =
      (Except.ok "cached-token".toList, cacheWithFresh, []) ∧
    getIamToken credCached [] iamEnvFresh =
      (Except.ok "new-token".toList,
       [(cacheKeyOf credCached, { token := "new-token".toList, expiresAt := 0 + 3600 * 1000 })],
       [TraceStep.netTokenExchange]) :=
  ⟨(C6_token_cache_policy credCached cacheWithFresh iamEnvFresh).1
      { token := "cached-token".toList, expiresAt := 10000000 } (by decide) (by decide),
   ((C6_token_cache_policy credCached [] iamEnvFresh).2 (Or.inl rfl)).2
      "new-token".toList 3600 rfl⟩

/-- Counterexample to C3 as stated: `credA` and `credB` are distinct
non-empty credentials, yet their cache keys coincide (both are the shared
16-character head), and a call with `credB` returns the token that was
cached for `credA`, with no token exchange. -/
theorem C3_counterexample :
    credA ≠ credB ∧ credA ≠ [] ∧ credB ≠ [] ∧
    cacheKeyOf credA = cacheKeyOf credB ∧
    getIamToken credB cacheAfterA iamEnvB =
      (Except.ok "token-for-A".toList, cacheAfterA, []) := by decide

lemma lookupCache_cons_ne (k k' : Str) (e : TokenCacheEntry) (cache : Cache) (h : k' ≠ k) :
    lookupCache k ((k', e) :: cache) = lookupCache k cache := by
  show (if k' = k then some e else lookupCache k cache) = lookupCache k cache
  exact if_neg h

/-- C3 (amended): two credentials that differ within their first 16
characters get distinct cache keys, and an exchange performed for one
leaves the cache entries under the key of the other untouched, so its token is
never handed to the other credential.  (Credentials sharing a 16-character
head collide, as the counterexample shows.) -/
theorem C3_distinct_heads_isolated (a b : Str) (cache : Cache) (env : IamEnv)
    (h : List.take 16 a ≠ List.take 16 b) :
    cacheKeyOf a ≠ cacheKeyOf b ∧
    lookupCache (cacheKeyOf b) (getIamToken a cache env).2.1 =
      lookupCache (cacheKeyOf b) cache := by
  have hk : cacheKeyOf a ≠ cacheKeyOf b := by
    unfold cacheKeyOf
    exact h
  refine ⟨hk, ?_⟩
  unfold getIamToken runExchange
  cases hl : lookupCache (cacheKeyOf a) cache with
  | some cached =>
    by_cases hfresh : env.now + 300000 < cached.expiresAt
    · simp [hfresh]
    · simp only [if_neg hfresh]
      cases hex : env.exchange with
      | error m => rfl
      | ok v =>
        show lookupCache (cacheKeyOf b) ((cacheKeyOf a, _) :: cache) = lookupCache (cacheKeyOf b) cache
        exact lookupCache_cons_ne _ _ _ _ hk
  | none =>
    cases hex : env.exchange with
    | error m => rfl
    | ok v =>
      show lookupCache (cacheKeyOf b) ((cacheKeyOf a, _) :: cache) = lookupCache (cacheKeyOf b) cache
      exact lookupCache_cons_ne _ _ _ _ hk

/-- Witness for the amended C3: credentials differing in their heads keep
separate cache keys and separate entries. -/
theorem C3_witness :
    cacheKeyOf "headONEaaaaaaaaa".toList ≠ cacheKeyOf "headTWOaaaaaaaaa".toList ∧
    lookupCache (cacheKeyOf "headTWOaaaaaaaaa".toList)
      (getIamToken "headONEaaaaaaaaa".toList [] iamEnvA).2.1 =
      lookupCache (cacheKeyOf "headTWOaaaaaaaaa".toList) ([] : Cache) :=
  C3_distinct_heads_isolated "headONEaaaaaaaaa".toList "headTWOaaaaaaaaa".toList [] iamEnvA
    (by decide)

/-- Counterexample to C4 as stated: on an assistant turn with plain-string
content, `buildWatsonxPrompt` does not return a prompt — line 106 calls
`.filter` on the string and throws a TypeError. -/
theorem C4_counterexample : buildWatsonxPrompt ctxAsstStr = none := by decide

lemma buildParts_spec (msgs : List Msg)
    (hroles : ∀ m ∈ msgs, m.role = Role.user ∨ m.role = Role.assistant)
    (hasst : ∀ m ∈ msgs, m.role = Role.assistant → isBlocks m.content = true) :
    buildParts msgs = some (msgs.map specSegment) := by
  induction msgs with
  | nil => rfl
  | cons m rest ih =>
    have hstep := ih (fun x hx => hroles x (List.mem_cons_of_mem m hx))
      (fun x hx => hasst x (List.mem_cons_of_mem m hx))
    have hm := hroles m (List.mem_cons_self m rest)
    cases hrole : m.role with
    | toolResult => rw [hrole] at hm; simp at hm
    | user =>
      cases hc : m.content with
      | str s =>
        unfold buildParts
        rw [hrole, hc, hstep]
        simp [specSegment, specText, hrole, hc]
      | blocks bs =>
        unfold buildParts
        rw [hrole, hc, hstep]
        simp [specSegment, specText, hrole, hc]
    | assistant =>
      cases hc : m.content with
      | str s =>
        have hb := hasst m (List.mem_cons_self m rest) hrole
        rw [hc] at hb
        simp [isBlocks] at hb
      | blocks bs =>
        unfold buildParts
        rw [hrole, hc, hstep]
        simp [specSegment, specText, hrole, hc]

/-- C4 (amended): for every context whose messages have role user or
assistant and whose assistant turns carry block-list content (user turns
may carry plain strings or blocks), `buildWatsonxPrompt` succeeds and
renders, per message in original order, the role-marker-wrapped segment
containing the extracted text.  (As stated the claim fails: an assistant
turn with plain-string content throws, as the counterexample shows.) -/
theorem C4_renders_messages (ctx : Context)
    (hroles : ∀ m ∈ ctx.messages, m.role = Role.user ∨ m.role = Role.assistant)
    (hasst : ∀ m ∈ ctx.messages, m.role = Role.assistant → isBlocks m.content = true) :
    buildWatsonxPrompt ctx =
      some (List.intercalate ['\n']
        (sysSegs ctx ++ ctx.messages.map specSegment ++ [trailingSeg])) := by
  unfold buildWatsonxPrompt
  rw [buildParts_spec ctx.messages hroles hasst]
  rfl

/-- Witness for the amended C4 on a mixed context. -/
theorem C4_witness :
    buildWatsonxPrompt ctxMixed =
      some (List.intercalate ['\n']
        (sysSegs ctxMixed ++ ctxMixed.messages.map specSegment ++ [trailingSeg])) :=
  C4_renders_messages ctxMixed (by decide) (by decide)

/-- Counterexample to C5 as stated: in a fully successful invocation the
`start` event is pushed at line 204, after the IAM token exchange (line
164) and after the generation request completes (lines 182-197), so it
does not precede the network actions. -/
theorem C5_counterexample : ¬ startBeforeNet (streamWatsonx inpHello) := by decide

lemma streamTail_start_head (frames : List GenResult) (rf : Option Str) (mc : Option CostRates) :
    ∃ rest, streamTail frames rf mc = TraceStep.emit Event.start :: rest ∧
      TraceStep.emit Event.start ∉ rest := by
  cases rf with
  | some m =>
    refine ⟨(runFrames frames initSSE).2.map TraceStep.emit ++ [TraceStep.emit (Event.error m)],
      ?_, ?_⟩
    · rw [streamTail_eq_some]
      rfl
    · intro hmem
      rw [List.mem_append] at hmem
      rcases hmem with h | h
      · rw [List.mem_map] at h
        obtain ⟨e, he, heq⟩ := h
        rcases runFrames_events_shape frames initSSE e he with h' | ⟨d, h'⟩ <;> subst h' <;>
          simp at heq
      · simp at h
  | none =>
    refine ⟨(runFrames frames initSSE).2.map TraceStep.emit ++
      ((if (runFrames frames initSSE).1.startedText then
          [TraceStep.emit (Event.text_end 0 (runFrames frames initSSE).1.fullText)]
        else []) ++
        [TraceStep.emit (Event.done (finalizeUsage (runFrames frames initSSE).1.usageInput
          (runFrames frames initSSE).1.usageOutput mc))]), ?_, ?_⟩
    · rw [streamTail_eq_none]
      rfl
    · intro hmem
      rw [List.mem_append] at hmem
      rcases hmem with h | h
      · rw [List.mem_map] at h
        obtain ⟨e, he, heq⟩ := h
        rcases runFrames_events_shape frames initSSE e he with h' | ⟨d, h'⟩ <;> subst h' <;>
          simp at heq
      · rw [List.mem_append] at h
        rcases h with h | h
        · by_cases hstart : (runFrames frames initSSE).1.startedText
          · rw [if_pos hstart] at h
            simp at h
          · rw [if_neg hstart] at h
            simp at h
        · simp at h

lemma streamTail_all_emits (frames : List GenResult) (rf : Option Str) (mc : Option CostRates) :
    ∀ a ∈ streamTail frames rf mc, ∃ e, a = TraceStep.emit e := by
  intro a ha
  cases rf with
  | some m =>
    rw [streamTail_eq_some, List.mem_append] at ha
    rcases ha with h | h
    · rcases List.mem_cons.mp h with h | h
      · exact ⟨Event.start, h⟩
      · rw [List.mem_map] at h
        obtain ⟨e, _, heq⟩ := h
        exact ⟨e, heq.symm⟩
    · simp at h
      exact ⟨Event.error m, h⟩
  | none =>
    rw [streamTail_eq_none, List.mem_append] at ha
    rcases ha with h | h
    · rcases List.mem_cons.mp h with h | h
      · exact ⟨Event.start, h⟩
      · rw [List.mem_map] at h
        obtain ⟨e, _, heq⟩ := h
        exact ⟨e, heq.symm⟩
    · rw [List.mem_append] at h
      rcases h with h | h
      · by_cases hstart : (runFrames frames initSSE).1.startedText
        · rw [if_pos hstart] at h
          simp at h
          exact ⟨Event.text_end 0 (runFrames frames initSSE).1.fullText, h⟩
        · rw [if_neg hstart] at h
          simp at h
      · simp at h
        exact ⟨Event.done (finalizeUsage (runFrames frames initSSE).1.usageInput
          (runFrames frames initSSE).1.usageOutput mc), h⟩

lemma streamWatsonx_success_eq (inp : StreamInput) (k p t q : Str) (frames : List GenResult)
    (rf : Option Str)
    (hk : resolvedApiKey inp = some k) (hk0 : k ≠ [])
    (hp : resolvedProjectId inp = some p) (hp0 : p ≠ [])
    (htok : (getIamToken k inp.cache inp.iamEnv).1 = Except.ok t)
    (hpr : buildWatsonxPrompt inp.context = some q)
    (hgen : inp.genResponse = GenResponse.stream frames rf) :
    streamWatsonx inp =
      (getIamToken k inp.cache inp.iamEnv).2.2 ++
        TraceStep.netGenerate :: streamTail frames rf inp.modelCost := by
  unfold streamWatsonx
  cases hk2 : resolvedApiKey inp with
  | none => rw [hk] at hk2; simp at hk2
  | some k' =>
    rw [hk] at hk2
    injection hk2 with hkk
    subst hkk
    simp only [if_neg hk0]
    cases hp2 : resolvedProjectId inp with
    | none => rw [hp] at hp2; simp at hp2
    | some p' =>
      rw [hp] at hp2
      injection hp2 with hpp
      subst hpp
      simp only [if_neg hp0]
      simp only [htok, hpr, hgen]

/-- C5 (amended): for every invocation that passes configuration
validation and whose token acquisition, prompt rendering, and generation
request succeed, `start` is emitted exactly once, after the network
actions (token exchange, if any, and the generation request) and before
every subsequent event: the trace splits as `acts ++ start :: rest` where
`acts` consists of network actions only, contains the generation request,
and `rest` contains no `start` emission and no network action — so every
network action of the whole trace precedes the sole `start`.  (As stated —
`start` before the network calls complete — the claim fails, as the
counterexample shows.) -/
theorem C5_start_after_network (inp : StreamInput) (k p t q : Str) (frames : List GenResult)
    (rf : Option Str)
    (hk : resolvedApiKey inp = some k) (hk0 : k ≠ [])
    (hp : resolvedProjectId inp = some p) (hp0 : p ≠ [])
    (htok : (getIamToken k inp.cache inp.iamEnv).1 = Except.ok t)
    (hpr : buildWatsonxPrompt inp.context = some q)
    (hgen : inp.genResponse = GenResponse.stream frames rf) :
    ∃ acts rest,
      streamWatsonx inp = acts ++ (TraceStep.emit Event.start :: rest) ∧
      (∀ a ∈ acts, a = TraceStep.netTokenExchange ∨ a = TraceStep.netGenerate) ∧
      TraceStep.netGenerate ∈ acts ∧
      TraceStep.emit Event.start ∉ rest ∧
      TraceStep.netTokenExchange ∉ rest ∧
      TraceStep.netGenerate ∉ rest := by
  obtain ⟨rest, hst, hnost⟩ := streamTail_start_head frames rf inp.modelCost
  have hrest_emits : ∀ a ∈ rest, ∃ e, a = TraceStep.emit e := by
    intro a ha
    exact streamTail_all_emits frames rf inp.modelCost a
      (by rw [hst]; exact List.mem_cons_of_mem _ ha)
  refine ⟨(getIamToken k inp.cache inp.iamEnv).2.2 ++ [TraceStep.netGenerate], rest,
    ?_, ?_, ?_, hnost, ?_, ?_⟩
  · rw [streamWatsonx_success_eq inp k p t q frames rf hk hk0 hp hp0 htok hpr hgen, hst]
    simp [List.append_assoc]
  · intro a ha
    rw [List.mem_append] at ha
    rcases ha with ha | ha
    · rcases getIamToken_actions k inp.cache inp.iamEnv with h | h <;> rw [h] at ha
      · simp at ha
      · left; simpa using ha
    · right; simpa using ha
  · exact List.mem_append_right _ (List.mem_singleton_self _)
  · intro hmem
    obtain ⟨e, he⟩ := hrest_emits _ hmem
    simp at he
  · intro hmem
    obtain ⟨e, he⟩ := hrest_emits _ hmem
    simp at he

/-- Witness for the amended C5 at the example invocation. -/
theorem C5_witness :
    ∃ acts rest,
      streamWatsonx inpHello = acts ++ (TraceStep.emit Event.start :: rest) ∧
      (∀ a ∈ acts, a = TraceStep.netTokenExchange ∨ a = TraceStep.netGenerate) ∧
      TraceStep.netGenerate ∈ acts ∧
      TraceStep.emit Event.start ∉ rest ∧
      TraceStep.netTokenExchange ∉ rest ∧
      TraceStep.netGenerate ∉ rest :=
  C5_start_after_network inpHello "test-api-key-0123456789".toList "proj-1".toList
    "token-hello".toList "<|user|>\nhi\n<|end|>\n<|assistant|>\n".toList framesHello none
    rfl (by decide) rfl (by decide) rfl (by decide) rfl

/-- C8: a missing credential (no apiKey option and no environment
fallback), or a missing project id, makes `streamWatsonx` emit exactly one
terminal error event carrying the configuration-error message, with no
network action — the whole trace is that single emission. -/
theorem C8_config_error_no_network (inp : StreamInput) :
    (inp.optApiKey = none → inp.envApiKey = none →
      streamWatsonx inp = [TraceStep.emit (Event.error apiKeyRequiredMsg)]) ∧
    (∀ k, resolvedApiKey inp = some k → k ≠ [] →
      inp.optProjectId = none → inp.envProjectId = none →
      streamWatsonx inp = [TraceStep.emit (Event.error projectIdRequiredMsg)]) := by
  constructor
  · intro h1 h2
    have hres : resolvedApiKey inp = none := by
      unfold resolvedApiKey
      rw [h1]
      exact h2
    unfold streamWatsonx
    cases hk : resolvedApiKey inp with
    | none => rfl
    | some k => rw [hres] at hk; simp at hk
  · intro k hk hk0 h1 h2
    have hres : resolvedProjectId inp = none := by
      unfold resolvedProjectId
      rw [h1]
      exact h2
    unfold streamWatsonx
    cases hk2 : resolvedApiKey inp with
    | none => rw [hk] at hk2; simp at hk2
    | some k' =>
      rw [hk] at hk2
      injection hk2 with hkk
      subst hkk
      simp only [if_neg hk0]
      cases hp2 : resolvedProjectId inp with
      | none => rfl
      | some p => rw [hres] at hp2; simp at hp2

/-- Witness for C8: both missing-configuration cases produce the single
terminal error and nothing else. -/
theorem C8_witness :
    streamWatsonx inpNoKey = [TraceStep.emit (Event.error apiKeyRequiredMsg)] ∧
    streamWatsonx inpNoProject = [TraceStep.emit (Event.error projectIdRequiredMsg)] :=
  ⟨(C8_config_error_no_network inpNoKey).1 rfl rfl,
   (C8_config_error_no_network inpNoProject).2 "some-key".toList rfl (by decide) rfl rfl⟩

lemma done_mem_streamTail (frames : List GenResult) (rf : Option Str) (mc : Option CostRates)
    (u : Usage) (h : TraceStep.emit (Event.done u) ∈ streamTail frames rf mc) :
    u = finalizeUsage (runFrames frames initSSE).1.usageInput
      (runFrames frames initSSE).1.usageOutput mc := by
  cases rf with
  | some m =>
    rw [streamTail_eq_some, List.mem_append] at h
    rcases h with h | h
    · rcases List.mem_cons.mp h with h | h
      · simp at h
      · rw [List.mem_map] at h
        obtain ⟨e, he, heq⟩ := h
        rcases runFrames_events_shape frames initSSE e he with h' | ⟨d, h'⟩ <;> subst h' <;>
          simp at heq
    · simp at h
  | none =>
    rw [streamTail_eq_none, List.mem_append] at h
    rcases h with h | h
    · rcases List.mem_cons.mp h with h | h
      · simp at h
      · rw [List.mem_map] at h
        obtain ⟨e, he, heq⟩ := h
        rcases runFrames_events_shape frames initSSE e he with h' | ⟨d, h'⟩ <;> subst h' <;>
          simp at heq
    · rw [List.mem_append] at h
      rcases h with h | h
      · by_cases hstart : (runFrames frames initSSE).1.startedText
        · rw [if_pos hstart] at h
          simp at h
        · rw [if_neg hstart] at h
          simp at h
      · simp at h
        exact h

/-- C9: the usage carried by any `done` event satisfies
`totalTokens = input + output`,
`cost.input = input / 1,000,000 × model input price`,
`cost.output = output / 1,000,000 × model output price`, and
`cost.total = cost.input + cost.output` (zero pricing when the model
declares none); at the example numbers of the spec the costs are 0.05, 0.04 and
0.09 dollars exactly. -/
theorem C9_usage_cost (inp : StreamInput) (u : Usage) :
    (TraceStep.emit (Event.done u) ∈ streamWatsonx inp →
      u.totalTokens = u.input + u.output ∧
      u.cost.input = (u.input : ℚ) / 1000000 * (inp.modelCost.getD zeroRates).input ∧
      u.cost.output = (u.output : ℚ) / 1000000 * (inp.modelCost.getD zeroRates).output ∧
      u.cost.total = u.cost.input + u.cost.output) ∧
    (finalizeUsage 1000000 500000
      (some { input := 1/20, output := 2/25, cacheRead := 0, cacheWrite := 0 })).cost.input
        = 1/20 ∧
    (finalizeUsage 1000000 500000
      (some { input := 1/20, output := 2/25, cacheRead := 0, cacheWrite := 0 })).cost.output
        = 1/25 ∧
    (finalizeUsage 1000000 500000
      (some { input := 1/20, output := 2/25, cacheRead := 0, cacheWrite := 0 })).cost.total
        = 9/100 := by
  refine ⟨?_, by norm_num [finalizeUsage], by norm_num [finalizeUsage], by norm_num [finalizeUsage]⟩
  intro hmem
  rcases streamWatsonx_shape inp with ⟨acts, msg, heq, hnet⟩ | ⟨acts, frames, rf, hgen, heq, hnet⟩
  · rw [heq, List.mem_append] at hmem
    rcases hmem with h | h
    · rcases hnet _ h with h' | h' <;> simp at h'
    · simp at h
  · rw [heq, List.mem_append] at hmem
    rcases hmem with h | h
    · rcases hnet _ h with h' | h' <;> simp at h'
    · have hu := done_mem_streamTail frames rf inp.modelCost u h
      subst hu
      refine ⟨rfl, rfl, rfl, rfl⟩

/-- Witness for C9: the `done` usage of the example invocation satisfies
the additivity equations. -/
theorem C9_witness :
    usageEx.totalTokens = usageEx.input + usageEx.output ∧
    usageEx.cost.total = usageEx.cost.input + usageEx.cost.output := by
  have htr : streamWatsonx inpCost =
      [TraceStep.netTokenExchange, TraceStep.netGenerate, TraceStep.emit Event.start,
       TraceStep.emit (Event.text_start 0), TraceStep.emit (Event.text_delta 0 "ok".toList),
       TraceStep.emit (Event.text_end 0 "ok".toList),
       TraceStep.emit (Event.done usageEx)] := rfl
  have hmem : TraceStep.emit (Event.done usageEx) ∈ streamWatsonx inpCost := by
    rw [htr]
    exact List.mem_cons_of_mem _ (List.mem_cons_of_mem _ (List.mem_cons_of_mem _
      (List.mem_cons_of_mem _ (List.mem_cons_of_mem _ (List.mem_cons_of_mem _
        (List.mem_singleton_self _))))))
  have h := (C9_usage_cost inpCost usageEx).1 hmem
  exact ⟨h.1, h.2.2.2⟩
